import Mathlib

set_option maxRecDepth 4000

/-!
Verification of the BLS12-381 line-evaluation script compiler
(`src/zkscript/bilinear_pairings/bls12_381/line_functions.py`).

The compiler emits a linear sequence of stack-machine instructions.  The
Bitcoin opcodes it emits literally (OP_SWAP, OP_NEGATE, OP_ROT, OP_2ROT,
OP_2SWAP, OP_TOALTSTACK, OP_FROMALTSTACK) are modelled with their standard
stack semantics.  The collaborator gadgets (the Fq2 arithmetic gadget set,
the pick / verify_bottom_constant / mod utilities) are part of the
repository but their sources are not included; they are modelled from the
specification as macro-instructions, each with the stack contract the spec
documents for it.

A machine state is a pair (main stack, alt stack); the head of each list is
the top of the corresponding stack.  An Fq2 element c0 + c1*u occupies two
slots, c0 pushed first (so c1 is nearer the top).
-/

/-- Truthiness of an optional boolean flag, exactly as Python evaluates a
`bool | None` argument in a condition: `None` is falsy. -/
def truthy (o : Option Bool) : Bool := o.getD false

/-- Modelled from the spec: the BLS12-381 base-field prime, i.e. the
`MODULUS` of the `fq2_script` gadget set the compiler is constructed with
(the `fields.py` module is not included under `src/`). -/
def blsPrime : Int :=
  0x1a0111ea397fe69a4b1ba7b6434bacd764774b84f38512bf6730d2a0f6b0f6241eabfffeb153ffffb9feffffffffaaab

/-- Instructions of the target stack machine, at the granularity at which
the compiler emits them: the plain Bitcoin opcodes it writes literally,
plus one macro-instruction per collaborator gadget call. -/
inductive Instr where
  | swap
  | negate
  | rot
  | twoSwap
  | twoRot
  | toAlt
  | fromAlt
  | pick (position nElements : Nat)
  | verifyBottomConstant (c : Int)
  | fq2ScalarMul (takeModulo checkConstant cleanConstant : Bool)
  | fq2Mul (takeModulo checkConstant cleanConstant : Bool)
  | fq2Sub (takeModulo positiveModulo checkConstant cleanConstant isConstantReused : Bool)
  | modOp (isPositive isConstantReused : Bool)
deriving DecidableEq

/-- A machine state: main stack and auxiliary (alt) stack, tops first. -/
abbrev MachineState := List Int × List Int

/-- Reduction of `x` modulo `q`: the canonical non-negative representative
when `pos` is true, a signed (truncated) representative otherwise. -/
def red (pos : Bool) (q x : Int) : Int := if pos then x % q else Int.tmod x q

/-- The bottom-most (deepest) element of a stack, if any. -/
def bottom : List Int → Option Int
  | [] => none
  | [a] => some a
  | _ :: b :: l => bottom (b :: l)

/-- Remove the bottom-most element of a stack. -/
def popBottom : List Int → List Int
  | [] => []
  | [_] => []
  | a :: b :: l => a :: popBottom (b :: l)

/-- Modelled from the spec: one-step semantics of the emitted instructions.
The plain opcodes follow the standard Bitcoin stack semantics.  The gadget
macro-instructions follow the collaborator contracts of the spec (sections
2 and 6), whose sources are not included under `src/`:

* `pick position nElements` duplicates `nElements` consecutive slots found
  at stack depth `position` (top = depth 0), pushing the copy to the top
  without disturbing the originals.
* `verifyBottomConstant c` asserts that the designated deep modulus slot
  (the stack bottom) equals `c`; on mismatch the script fails.
* The Fq2 gadgets consume two-limb quadratic-extension elements
  (`c0 + c1*u` with the BLS12-381 non-residue, `u^2 = -1`); the element on
  top of the stack is the one pushed last.  `fq2Sub` consumes two elements
  and produces their difference, the subtrahend on top (this is the
  convention forced by the spec's own concrete scenario and by the source
  comments; see the first-component theorems).  When `takeModulo` is set a
  gadget reduces its result by the modulus constant found at the stack
  bottom, removing that constant when `cleanConstant` is set, and (for the
  subtraction) leaving a copy of it second-to-top when `isConstantReused`
  is set, for the subsequent batched reductions.  `checkConstant` asserts
  the bottom constant equals the gadget set's modulus `M`.
* `modOp` is the reduction/cleanup idiom of the batched finalization: each
  application pops exactly one side-stacked value and processes it
  according to its position in the fixed finalize pipeline (recovered here
  from the number of side-stacked values remaining): the deferred add-back
  operand `y_P` is buffered reduced, the first wide limb is combined with
  it and reduced (the spec's implicit add-then-reduce), and the last wide
  limb is reduced with `isConstantReused` governing whether the threaded
  modulus copy remains second-to-top.  The earlier applications keep the
  threaded modulus copy in place. -/
def step (M : Int) : Instr → MachineState → Option MachineState
  | .swap, (a :: b :: s, alt) => some (b :: a :: s, alt)
  | .negate, (a :: s, alt) => some (-a :: s, alt)
  | .rot, (a :: b :: c :: s, alt) => some (c :: a :: b :: s, alt)
  | .twoSwap, (a :: b :: c :: d :: s, alt) => some (c :: d :: a :: b :: s, alt)
  | .twoRot, (a :: b :: c :: d :: e :: f :: s, alt) => some (e :: f :: a :: b :: c :: d :: s, alt)
  | .toAlt, (a :: s, alt) => some (s, a :: alt)
  | .fromAlt, (s, a :: alt) => some (a :: s, alt)
  | .pick p n, (s, alt) =>
      if p < s.length ∧ n ≤ p + 1 then some ((s.drop (p + 1 - n)).take n ++ s, alt) else none
  | .verifyBottomConstant c, (s, alt) =>
      if bottom s = some c then some (s, alt) else none
  | .fq2ScalarMul tm cc clc, (s0 :: x1 :: x0 :: rest, alt) =>
      if cc = true ∧ bottom rest ≠ some M then none
      else if tm then
        match bottom rest with
        | some q => some (red true q (x1 * s0) :: red true q (x0 * s0) ::
            (if clc then popBottom rest else rest), alt)
        | none => none
      else some (x1 * s0 :: x0 * s0 :: (if clc then popBottom rest else rest), alt)
  | .fq2Mul tm cc clc, (b1 :: b0 :: a1 :: a0 :: rest, alt) =>
      if cc = true ∧ bottom rest ≠ some M then none
      else if tm then
        match bottom rest with
        | some q => some (red true q (a0 * b1 + a1 * b0) :: red true q (a0 * b0 - a1 * b1) ::
            (if clc then popBottom rest else rest), alt)
        | none => none
      else some ((a0 * b1 + a1 * b0) :: (a0 * b0 - a1 * b1) ::
          (if clc then popBottom rest else rest), alt)
  | .fq2Sub tm pm cc clc icr, (y1 :: y0 :: x1 :: x0 :: rest, alt) =>
      if cc = true ∧ bottom rest ≠ some M then none
      else if tm then
        match bottom rest with
        | some q =>
            some ((if icr then
                red pm q (x1 - y1) :: q :: red pm q (x0 - y0) ::
                  (if clc then popBottom rest else rest)
              else
                red pm q (x1 - y1) :: red pm q (x0 - y0) ::
                  (if clc then popBottom rest else rest)), alt)
        | none => none
      else some ((x1 - y1) :: (x0 - y0) :: (if clc then popBottom rest else rest), alt)
  | .modOp pos icr, (y :: q :: rest, a :: alt) =>
      match alt.length with
      | 2 => some (red pos q a :: q :: y :: rest, alt)
      | 1 => some (red pos q (a + y) :: q :: rest, alt)
      | 0 => some ((if icr then red pos q a :: q :: y :: rest else red pos q a :: y :: rest), alt)
      | _ => none
  | _, _ => none

/-- Execution of an instruction sequence: sequential, failing as soon as a
step fails. -/
def exec (M : Int) : List Instr → MachineState → Option MachineState
  | [], s => some s
  | i :: l, s => (step M i s).bind (exec M l)

/-- Modelled from the spec: the `verify_bottom_constant` utility (its module
is not under `src/`): it emits the guard asserting the bottom-of-stack
modulus slot equals the known constant, consuming nothing. -/
def verify_bottom_constant (c : Int) : List Instr := [Instr.verifyBottomConstant c]

/-- Modelled from the spec: the positional duplicate utility `pick`
(its module is not under `src/`). -/
def pick (position nElements : Nat) : List Instr := [Instr.pick position nElements]

/-- Modelled from the spec: the reduction/cleanup utility `mod` (its module
is not under `src/`); per the spec's `reduce` contract its
`is_constant_reused` argument defaults to false, so the compiler's two
argument-less calls carry `false` here. -/
def mod_op (isPositive isConstantReused : Bool) : List Instr := [Instr.modOp isPositive isConstantReused]

/-- Modelled from the spec: a call to the Fq2 `mul` gadget of the gadget
set fixed at construction (its module is not under `src/`). -/
def fq2_mul (takeModulo checkConstant cleanConstant : Bool) : List Instr :=
  [Instr.fq2Mul takeModulo checkConstant cleanConstant]

/-- Modelled from the spec: a call to the Fq2 `scalar_mul` gadget (its
module is not under `src/`). -/
def fq2_scalar_mul (takeModulo checkConstant cleanConstant : Bool) : List Instr :=
  [Instr.fq2ScalarMul takeModulo checkConstant cleanConstant]

/-- Modelled from the spec: a call to the Fq2 `subtract` gadget (its module
is not under `src/`).  The gadget's own defaults (`positive_modulo = True`,
`is_constant_reused = False`) are supplied explicitly at call sites that
omit them. -/
def fq2_subtract (takeModulo positiveModulo checkConstant cleanConstant isConstantReused : Bool) :
    List Instr :=
  [Instr.fq2Sub takeModulo positiveModulo checkConstant cleanConstant isConstantReused]

/-- From the source: the third-component phase of `line_evaluation`
(`OP_SWAP OP_NEGATE`, pick lambda, `OP_ROT`, unreduced scalar
multiplication, two moves to the alt stack). -/
def third_component : List Instr :=
  [Instr.swap, Instr.negate] ++ pick 7 2 ++ [Instr.rot] ++
    fq2_scalar_mul false false false ++ [Instr.toAlt, Instr.toAlt]

/-- From the source: the second-component phase of `line_evaluation`
(move `y_P` to the alt stack). -/
def second_component : List Instr := [Instr.toAlt]

/-- From the source: the first-component phase of `line_evaluation`
(`OP_2ROT OP_2ROT`, unreduced multiplication, `OP_2SWAP`, then the
subtraction, reduced and constant-reusing exactly when `take_modulo`). -/
def first_component (take_modulo positive_modulo : Bool) (clean_constant : Option Bool) :
    List Instr :=
  [Instr.twoRot, Instr.twoRot] ++ fq2_mul false false false ++ [Instr.twoSwap] ++
    (if take_modulo then
      fq2_subtract take_modulo positive_modulo false (truthy clean_constant) true
    else
      fq2_subtract false true false false false)

/-- From the source: `LineFunctions.line_evaluation`.  `MODULUS` is the
modulus of the Fq2 gadget set fixed at construction.  The optional flags
follow Python truthiness (`None` falsy). -/
def line_evaluation (MODULUS : Int) (take_modulo positive_modulo : Bool)
    (check_constant clean_constant is_constant_reused : Option Bool) : List Instr :=
  (if truthy check_constant then verify_bottom_constant MODULUS else []) ++
    third_component ++ second_component ++
    first_component take_modulo positive_modulo clean_constant ++
    (if take_modulo then
      mod_op positive_modulo false ++ mod_op positive_modulo false ++
        mod_op positive_modulo (truthy is_constant_reused)
    else
      [Instr.fromAlt, Instr.fromAlt, Instr.fromAlt])

/-- Does an instruction invoke a modular reduction? -/
def invokesReduction : Instr → Bool
  | .modOp _ _ => true
  | .fq2Sub tm _ _ _ _ => tm
  | .fq2Mul tm _ _ => tm
  | .fq2ScalarMul tm _ _ => tm
  | _ => false

/-- Is an instruction a reduction-idiom call? -/
def isModOp : Instr → Bool
  | .modOp _ _ => true
  | _ => false

/-- Is an instruction the modulus guard? -/
def isGuard : Instr → Bool
  | .verifyBottomConstant _ => true
  | _ => false

/-- Does an instruction transfer a value to the alt stack? -/
def movesToAlt : Instr → Bool
  | .toAlt => true
  | _ => false

/-- Does an instruction retrieve a value from the alt stack? -/
def retrievesFromAlt : Instr → Bool
  | .fromAlt => true
  | .modOp _ _ => true
  | _ => false

/-- Modelled from the spec: an alternative one-step semantics that realises
section 6's words for the subtraction contract, "consumes two
extension-field elements (minuend on top)", i.e. the element on top of the
stack is subtracted FROM; it differs from `step` only on the subtract
gadget. -/
def step_minuend_top (M : Int) (i : Instr) (s : MachineState) : Option MachineState :=
  match i, s with
  | .fq2Sub tm pm cc clc icr, (y1 :: y0 :: x1 :: x0 :: rest, alt) =>
      if cc = true ∧ bottom rest ≠ some M then none
      else if tm then
        match bottom rest with
        | some q =>
            some ((if icr then
                red pm q (y1 - x1) :: q :: red pm q (y0 - x0) ::
                  (if clc then popBottom rest else rest)
              else
                red pm q (y1 - x1) :: red pm q (y0 - x0) ::
                  (if clc then popBottom rest else rest)), alt)
        | none => none
      else some ((y1 - x1) :: (y0 - x0) :: (if clc then popBottom rest else rest), alt)
  | i, s => step M i s

/-- Execution under the minuend-on-top reading of the subtract contract. -/
def exec_minuend_top (M : Int) : List Instr → MachineState → Option MachineState
  | [], s => some s
  | i :: l, s => (step_minuend_top M i s).bind (exec_minuend_top M l)

/-! Helper lemmas: passing and failing the modulus guard, and closed-form
evaluations of the emitted script on the documented entry stack
`[q, lambda, Q, P]` (written head-first, so the list is
`[yP, xP, yQ1, yQ0, xQ1, xQ0, l1, l0, bottom]`). -/

lemma exec_verify_cons (M c : Int) (l : List Instr) (s : List Int) (alt : List Int)
    (h : bottom s = some c) :
    exec M (Instr.verifyBottomConstant c :: l) (s, alt) = exec M l (s, alt) := by
  simp [exec, step, h]

lemma exec_verify_fail (M c : Int) (l : List Instr) (s : List Int) (alt : List Int)
    (h : bottom s ≠ some c) :
    exec M (Instr.verifyBottomConstant c :: l) (s, alt) = none := by
  simp [exec, step, h]

lemma line_evaluation_exec_true (M bq l0 l1 xQ0 xQ1 yQ0 yQ1 xP yP : Int)
    (pm clc icr cc : Bool) (hcc : cc = true → bq = M) :
    exec M (line_evaluation M true pm (some cc) (some clc) (some icr))
      ([yP, xP, yQ1, yQ0, xQ1, xQ0, l1, l0, bq], []) =
      some (red pm bq (l1 * -xP) ::
        ((if icr then [bq] else []) ++
          red pm bq (l0 * -xP + red pm bq yP) ::
          red pm bq (l0 * xQ1 + l1 * xQ0 - yQ1) ::
          red pm bq (l0 * xQ0 - l1 * xQ1 - yQ0) ::
          (if clc then [] else [bq])), []) := by
  cases cc with
  | false => cases clc <;> cases icr <;> rfl
  | true =>
      have h := hcc rfl
      subst h
      cases clc <;> cases icr <;>
        exact (exec_verify_cons bq bq _ [yP, xP, yQ1, yQ0, xQ1, xQ0, l1, l0, bq] []
          (by rfl)).trans (by rfl)

lemma line_evaluation_exec_false (M bq l0 l1 xQ0 xQ1 yQ0 yQ1 xP yP : Int)
    (pm clc icr cc : Bool) (hcc : cc = true → bq = M) :
    exec M (line_evaluation M false pm (some cc) (some clc) (some icr))
      ([yP, xP, yQ1, yQ0, xQ1, xQ0, l1, l0, bq], []) =
      some ([l1 * -xP, l0 * -xP, yP,
        l0 * xQ1 + l1 * xQ0 - yQ1, l0 * xQ0 - l1 * xQ1 - yQ0, bq], []) := by
  cases cc with
  | false => rfl
  | true =>
      have h := hcc rfl
      subst h
      exact (exec_verify_cons bq bq _ [yP, xP, yQ1, yQ0, xQ1, xQ0, l1, l0, bq] []
        (by rfl)).trans (by rfl)

lemma line_evaluation_norm (M : Int) (tm pm : Bool) (cc clc icr : Option Bool) :
    line_evaluation M tm pm cc clc icr =
      line_evaluation M tm pm (some (truthy cc)) (some (truthy clc)) (some (truthy icr)) := by
  cases cc <;> cases clc <;> cases icr <;> rfl

lemma exec_before_finalization (M bq l0 l1 xQ0 xQ1 yQ0 yQ1 xP yP : Int)
    (tm pm : Bool) (clc : Option Bool) (cc : Bool) (hcc : cc = true → bq = M) :
    exec M ((if cc then verify_bottom_constant M else []) ++
        third_component ++ second_component ++ first_component tm pm clc)
      ([yP, xP, yQ1, yQ0, xQ1, xQ0, l1, l0, bq], []) =
      some ((if tm then
          red pm bq (l0 * xQ1 + l1 * xQ0 - yQ1) :: bq ::
            red pm bq (l0 * xQ0 - l1 * xQ1 - yQ0) :: (if truthy clc then [] else [bq])
        else
          [l0 * xQ1 + l1 * xQ0 - yQ1, l0 * xQ0 - l1 * xQ1 - yQ0, bq]),
        [yP, l0 * -xP, l1 * -xP]) := by
  cases cc with
  | false =>
      rcases clc with _ | b
      · cases tm <;> rfl
      · cases b <;> cases tm <;> rfl
  | true =>
      have h := hcc rfl
      subst h
      rcases clc with _ | b
      · cases tm <;>
          exact (exec_verify_cons bq bq _ [yP, xP, yQ1, yQ0, xQ1, xQ0, l1, l0, bq] []
            (by rfl)).trans (by rfl)
      · cases b <;> cases tm <;>
          exact (exec_verify_cons bq bq _ [yP, xP, yQ1, yQ0, xQ1, xQ0, l1, l0, bq] []
            (by rfl)).trans (by rfl)

lemma emod_absorb (a b M : Int) : (a + b % M) % M = (a + b) % M := by
  conv_lhs => rw [Int.add_emod, Int.emod_emod_of_dvd b dvd_rfl, ← Int.add_emod]

/-- Claim C1: for every input `(lambda, Q, P)` placed on the stack in the
documented order `[q, lambda, Q, P]`, executing the script emitted with
`take_modulo = true` and `positive_modulo = true` (any guard/cleanup flags)
succeeds and leaves exactly the two extension-field components
`lambda * xQ - yQ mod q` (deeper) and `-lambda * xP + yP mod q` (on top,
with the modulus copy second-to-top exactly when `is_constant_reused`) as
the final stack contents above the optionally-cleaned modulus slot, all
four limbs in canonical non-negative residue form. -/
theorem line_evaluation_take_modulo_output (M l0 l1 xQ0 xQ1 yQ0 yQ1 xP yP : Int)
    (hM : 0 < M) (cc clc icr : Option Bool) :
    exec M (line_evaluation M true true cc clc icr)
      ([yP, xP, yQ1, yQ0, xQ1, xQ0, l1, l0, M], []) =
      some ((-(l1 * xP)) % M ::
        ((if truthy icr then [M] else []) ++
          (-(l0 * xP) + yP) % M ::
          (l0 * xQ1 + l1 * xQ0 - yQ1) % M ::
          (l0 * xQ0 - l1 * xQ1 - yQ0) % M ::
          (if truthy clc then [] else [M])), [])
    ∧ 0 ≤ (-(l0 * xP) + yP) % M ∧ (-(l0 * xP) + yP) % M < M
    ∧ 0 ≤ (-(l1 * xP)) % M ∧ (-(l1 * xP)) % M < M
    ∧ 0 ≤ (l0 * xQ0 - l1 * xQ1 - yQ0) % M ∧ (l0 * xQ0 - l1 * xQ1 - yQ0) % M < M
    ∧ 0 ≤ (l0 * xQ1 + l1 * xQ0 - yQ1) % M ∧ (l0 * xQ1 + l1 * xQ0 - yQ1) % M < M := by
  refine ⟨?_, Int.emod_nonneg _ (by omega), Int.emod_lt_of_pos _ hM,
    Int.emod_nonneg _ (by omega), Int.emod_lt_of_pos _ hM,
    Int.emod_nonneg _ (by omega), Int.emod_lt_of_pos _ hM,
    Int.emod_nonneg _ (by omega), Int.emod_lt_of_pos _ hM⟩
  rw [line_evaluation_norm,
    line_evaluation_exec_true M M l0 l1 xQ0 xQ1 yQ0 yQ1 xP yP true (truthy clc) (truthy icr)
      (truthy cc) (fun _ => rfl)]
  simp only [red, if_true, mul_neg, emod_absorb]

/-- Witness for claim C1, at the documented BLS12-381 scenario:
`q` the BLS12-381 base-field prime, `lambda = (2, 0)`, `Q = (1, 0, 1, 0)`,
`P = (3, 5)`: the first component is `(1, 0)` and the third component is
`(q - 1, 0)`. -/
theorem line_evaluation_take_modulo_output_witness :
    0 < blsPrime ∧
    exec blsPrime (line_evaluation blsPrime true true (some true) (some false) (some false))
      ([5, 3, 0, 1, 0, 1, 0, 2, blsPrime], []) =
      some ([0, blsPrime - 1, 0, 1, blsPrime], []) := by
  have h := line_evaluation_take_modulo_output blsPrime 2 0 1 0 1 0 3 5 (by decide)
    (some true) (some false) (some false)
  refine ⟨by decide, ?_⟩
  rw [h.1]
  decide

/-- Claim C2, counterexample: under the spec's stated collaborator contract
for the subtraction ("consumes two extension-field elements, minuend on
top"), the first-component phase applied to `lambda = (2, 0)`,
`xQ = (1, 0)`, `yQ = (1, 0)` produces `yQ - lambda * xQ = (-1, 0)`, which
is not `lambda * xQ - yQ = (1, 0)`: the claim's conjunction of that
contract with the value `lambda * xQ - yQ` is false. -/
theorem first_component_minuend_top_counterexample :
    exec_minuend_top 17 (first_component false true none) ([0, 1, 0, 1, 0, 2, 17], []) =
      some ([0, -1, 17], []) ∧ ((-1 : Int) ≠ 2 * 1 - 0 * 0 - 1) := by decide

/-- Claim C2, amended: the first-component phase rotates lambda and `xQ` to
the top, multiplies without reduction, rotates `yQ` to the top, and invokes
the subtract gadget, which consumes two extension-field elements with the
subtrahend on top (the minuend beneath); the phase therefore produces
`lambda * xQ - yQ` (reduced exactly when `take_modulo`, with the modulus
copy kept second-to-top for the subsequent reduction steps). -/
theorem first_component_value (M l0 l1 xQ0 xQ1 yQ0 yQ1 : Int)
    (tm pm : Bool) (clc : Option Bool) (A : List Int) :
    exec M (first_component tm pm clc) ([yQ1, yQ0, xQ1, xQ0, l1, l0, M], A) =
      some (if tm then
          (red pm M (l0 * xQ1 + l1 * xQ0 - yQ1) :: M ::
            red pm M (l0 * xQ0 - l1 * xQ1 - yQ0) :: (if truthy clc then [] else [M]), A)
        else
          ([l0 * xQ1 + l1 * xQ0 - yQ1, l0 * xQ0 - l1 * xQ1 - yQ0, M], A)) := by
  rcases clc with _ | b
  · cases tm <;> rfl
  · cases b <;> cases tm <;> rfl

/-- Claim C3: with `take_modulo = false` the emitted script invokes no
reduction anywhere (every gadget call carries its reduction flag disabled
and no reduction idiom is emitted), the finalization is exactly the three
plain `OP_FROMALTSTACK` restores appended after the three phases, and
execution yields the unreduced integer results of the underlying gadgets
bit-for-bit. -/
theorem line_evaluation_no_modulo_unreduced (M l0 l1 xQ0 xQ1 yQ0 yQ1 xP yP : Int)
    (pm : Bool) (cc clc icr : Option Bool) :
    ((line_evaluation M false pm cc clc icr).all fun i => !invokesReduction i) = true
    ∧ line_evaluation M false pm cc clc icr =
        (if truthy cc then verify_bottom_constant M else []) ++
          third_component ++ second_component ++ first_component false pm clc ++
          [Instr.fromAlt, Instr.fromAlt, Instr.fromAlt]
    ∧ exec M (line_evaluation M false pm cc clc icr)
        ([yP, xP, yQ1, yQ0, xQ1, xQ0, l1, l0, M], []) =
        some ([l1 * -xP, l0 * -xP, yP,
          l0 * xQ1 + l1 * xQ0 - yQ1, l0 * xQ0 - l1 * xQ1 - yQ0, M], []) := by
  refine ⟨?_, ?_, ?_⟩
  · rcases cc with _ | b
    · rfl
    · cases b <;> rfl
  · rfl
  · rw [line_evaluation_norm]
    exact line_evaluation_exec_false M M l0 l1 xQ0 xQ1 yQ0 yQ1 xP yP pm (truthy clc)
      (truthy icr) (truthy cc) (fun _ => rfl)

/-- Claim C4: exactly when `check_constant` is true the emitted script
begins with the modulus guard, placed before any arithmetic instruction,
and executing it with a wrong modulus value `q'` in the guarded bottom slot
fails; with `check_constant` false the script contains no guard at all and
the same wrong-modulus execution does not fail but produces a numeric
result. -/
theorem check_constant_guard (M q' l0 l1 xQ0 xQ1 yQ0 yQ1 xP yP : Int) (h : q' ≠ M)
    (tm pm : Bool) (clc icr : Option Bool) :
    (line_evaluation M tm pm (some true) clc icr).head? =
        some (Instr.verifyBottomConstant M)
    ∧ exec M (line_evaluation M tm pm (some true) clc icr)
        ([yP, xP, yQ1, yQ0, xQ1, xQ0, l1, l0, q'], []) = none
    ∧ ((line_evaluation M tm pm (some false) clc icr).all fun i => !isGuard i) = true
    ∧ ∃ st, exec M (line_evaluation M tm pm (some false) clc icr)
        ([yP, xP, yQ1, yQ0, xQ1, xQ0, l1, l0, q'], []) = some st := by
  refine ⟨rfl, ?_, ?_, ?_⟩
  · exact exec_verify_fail M M _ [yP, xP, yQ1, yQ0, xQ1, xQ0, l1, l0, q'] []
      (by simpa [bottom] using h)
  · cases tm <;> rfl
  · rw [line_evaluation_norm]
    cases tm with
    | true =>
        exact ⟨_, line_evaluation_exec_true M q' l0 l1 xQ0 xQ1 yQ0 yQ1 xP yP pm (truthy clc)
          (truthy icr) false (fun hh => (Bool.false_ne_true hh).elim)⟩
    | false =>
        exact ⟨_, line_evaluation_exec_false M q' l0 l1 xQ0 xQ1 yQ0 yQ1 xP yP pm (truthy clc)
          (truthy icr) false (fun hh => (Bool.false_ne_true hh).elim)⟩

/-- Witness for claim C4: with compiler modulus 17 and the wrong value 7 in
the guarded slot, the guarded script fails at execution time. -/
theorem check_constant_guard_witness :
    (7 : Int) ≠ 17 ∧
    exec 17 (line_evaluation 17 true true (some true) none none)
      ([5, 3, 0, 1, 0, 1, 0, 2, 7], []) = none := by
  exact ⟨by decide,
    (check_constant_guard 17 7 2 0 1 0 1 0 3 5 (by decide) true true none none).2.1⟩

/-- Claim C5, counterexample: at `q = 17`, `lambda = (2, 3)`, `xQ = (1, 1)`,
`yQ = (1, 0)`, `P = (3, 5)`, the last emitted instruction is the third
reduction-idiom call; just before it the first component is already fully
reduced on the stack (limbs 15 and 5) and the side stack still holds the
wide limb -9 of `-lambda * xP`; the third call consumes that wide limb and
pushes its residue 8 = (-9) mod 17, a value distinct from both
first-component limbs.  The third idiom application is therefore applied to
the second side-stacked wide limb, not to the already-reduced first
component as the claim states. -/
theorem batched_modulo_idiom_counterexample :
    exec 17 ((line_evaluation 17 true true (some false) (some false) (some false)).dropLast)
      ([5, 3, 0, 1, 1, 1, 3, 2, 17], []) = some ([16, 17, 5, 15, 17], [-9])
    ∧ exec 17 (line_evaluation 17 true true (some false) (some false) (some false))
      ([5, 3, 0, 1, 1, 1, 3, 2, 17], []) = some ([8, 16, 5, 15, 17], [])
    ∧ (line_evaluation 17 true true (some false) (some false) (some false)).getLast? =
        some (Instr.modOp true false)
    ∧ ((8 : Int) = (-(3 * 3)) % 17 ∧ (8 : Int) ≠ 15 ∧ (8 : Int) ≠ 5) := by decide

/-- Claim C5, amended: when `take_modulo` is true the finalization applies
the reduction/cleanup idiom exactly three times, processing the three
side-stacked values (`yP`, then the two wide limbs of `-lambda * xP`) in
turn — the first component having already been reduced by the subtraction
step — with `is_constant_reused` passed only on the last of the three calls
(the first two carry the gadget's default, false); `is_constant_reused`
governs only whether the modulus copy remains second-to-top in the final
stack, never the numeric values of the outputs. -/
theorem batched_modulo_structure (M l0 l1 xQ0 xQ1 yQ0 yQ1 xP yP : Int)
    (pm : Bool) (cc clc icr icr' : Option Bool) :
    (∃ front, line_evaluation M true pm cc clc icr =
        front ++ [Instr.modOp pm false, Instr.modOp pm false, Instr.modOp pm (truthy icr)]
      ∧ (front.all fun i => !isModOp i) = true)
    ∧ ∃ v out,
        exec M (line_evaluation M true pm cc clc icr)
          ([yP, xP, yQ1, yQ0, xQ1, xQ0, l1, l0, M], []) =
          some (v :: ((if truthy icr then [M] else []) ++ out), [])
      ∧ exec M (line_evaluation M true pm cc clc icr')
          ([yP, xP, yQ1, yQ0, xQ1, xQ0, l1, l0, M], []) =
          some (v :: ((if truthy icr' then [M] else []) ++ out), []) := by
  constructor
  · refine ⟨(if truthy cc then verify_bottom_constant M else []) ++ third_component ++
      second_component ++ first_component true pm clc, ?_, ?_⟩
    · rfl
    · rcases cc with _ | b
      · rfl
      · cases b <;> rfl
  · refine ⟨red pm M (l1 * -xP),
      red pm M (l0 * -xP + red pm M yP) ::
        red pm M (l0 * xQ1 + l1 * xQ0 - yQ1) ::
        red pm M (l0 * xQ0 - l1 * xQ1 - yQ0) ::
        (if truthy clc then [] else [M]), ?_, ?_⟩
    · rw [line_evaluation_norm]
      exact line_evaluation_exec_true M M l0 l1 xQ0 xQ1 yQ0 yQ1 xP yP pm (truthy clc)
        (truthy icr) (truthy cc) (fun _ => rfl)
    · rw [line_evaluation_norm]
      exact line_evaluation_exec_true M M l0 l1 xQ0 xQ1 yQ0 yQ1 xP yP pm (truthy clc)
        (truthy icr') (truthy cc) (fun _ => rfl)

/-- Claim C6: for every fixed value of the other flags, the scripts emitted
with `clean_constant = true` and `clean_constant = false` compute identical
output values, and the two executions differ only in whether the modulus
slot remains at the bottom of the stack beneath the outputs (when
`take_modulo` is false the constant is never consumed and both runs are
identical). -/
theorem clean_constant_frame (M l0 l1 xQ0 xQ1 yQ0 yQ1 xP yP : Int)
    (tm pm : Bool) (cc icr : Option Bool) :
    ∃ out, exec M (line_evaluation M tm pm cc (some false) icr)
        ([yP, xP, yQ1, yQ0, xQ1, xQ0, l1, l0, M], []) = some (out ++ [M], [])
      ∧ exec M (line_evaluation M tm pm cc (some true) icr)
        ([yP, xP, yQ1, yQ0, xQ1, xQ0, l1, l0, M], []) =
        some (out ++ (if tm then [] else [M]), []) := by
  cases tm with
  | true =>
      refine ⟨red pm M (l1 * -xP) :: ((if truthy icr then [M] else []) ++
        [red pm M (l0 * -xP + red pm M yP), red pm M (l0 * xQ1 + l1 * xQ0 - yQ1),
          red pm M (l0 * xQ0 - l1 * xQ1 - yQ0)]), ?_, ?_⟩
      · rw [line_evaluation_norm, line_evaluation_exec_true M M l0 l1 xQ0 xQ1 yQ0 yQ1 xP yP pm
          (truthy (some false)) (truthy icr) (truthy cc) (fun _ => rfl)]
        simp [truthy, List.append_assoc]
      · rw [line_evaluation_norm, line_evaluation_exec_true M M l0 l1 xQ0 xQ1 yQ0 yQ1 xP yP pm
          (truthy (some true)) (truthy icr) (truthy cc) (fun _ => rfl)]
        simp [truthy, List.append_assoc]
  | false =>
      refine ⟨[l1 * -xP, l0 * -xP, yP, l0 * xQ1 + l1 * xQ0 - yQ1,
        l0 * xQ0 - l1 * xQ1 - yQ0], ?_, ?_⟩
      · rw [line_evaluation_norm, line_evaluation_exec_false M M l0 l1 xQ0 xQ1 yQ0 yQ1 xP yP pm
          (truthy (some false)) (truthy icr) (truthy cc) (fun _ => rfl)]
        rfl
      · rw [line_evaluation_norm, line_evaluation_exec_false M M l0 l1 xQ0 xQ1 yQ0 yQ1 xP yP pm
          (truthy (some true)) (truthy icr) (truthy cc) (fun _ => rfl)]
        rfl

/-- Claim C7: compilation is total over the documented flag domain
(`take_modulo`, `positive_modulo` booleans, the remaining three flags
boolean or `None`): every call returns a (non-empty) instruction
sequence. -/
theorem line_evaluation_total (M : Int) (tm pm : Bool) (cc clc icr : Option Bool) :
    0 < (line_evaluation M tm pm cc clc icr).length := by
  rcases cc with _ | b
  · cases tm <;> exact Nat.succ_pos _
  · cases b <;> cases tm <;> exact Nat.succ_pos _

/-- Claim C8: `line_evaluation` is a pure, deterministic function of its
flag arguments and the gadget-set modulus fixed at construction: two calls
on instances with the same modulus and identical flags yield identical
instruction sequences. -/
theorem line_evaluation_pure (M M' : Int) (tm pm : Bool) (cc clc icr : Option Bool)
    (h : M = M') :
    line_evaluation M tm pm cc clc icr = line_evaluation M' tm pm cc clc icr := by
  rw [h]

/-- Witness for claim C8 at a concrete instance. -/
theorem line_evaluation_pure_witness :
    (17 : Int) = 17 ∧
    line_evaluation 17 true true none none none = line_evaluation 17 true true none none none :=
  ⟨rfl, line_evaluation_pure 17 17 true true none none none rfl⟩

/-- Claim C9: with `take_modulo = false`, the emitted instruction sequence
does not depend on `positive_modulo`, `clean_constant` or
`is_constant_reused`: any two calls with the same `check_constant` agree
regardless of those three flags. -/
theorem line_evaluation_no_modulo_flag_independent (M : Int) (pm pm' : Bool)
    (cc clc clc' icr icr' : Option Bool) :
    line_evaluation M false pm cc clc icr = line_evaluation M false pm' cc clc' icr' := rfl

/-- Claim C10: every emitted script transfers exactly three values to the
auxiliary stack — after the first three phases the alt stack holds exactly
`yP` and the two limbs of `-lambda * xP` — and retrieves exactly three
values from it (all via the reduction-idiom calls when `take_modulo`, all
via `OP_FROMALTSTACK` otherwise), so that execution of the full script ends
with the auxiliary stack empty. -/
theorem altstack_balanced (M l0 l1 xQ0 xQ1 yQ0 yQ1 xP yP : Int)
    (tm pm : Bool) (cc clc icr : Option Bool) :
    ((line_evaluation M tm pm cc clc icr).countP fun i => movesToAlt i) = 3
    ∧ ((line_evaluation M tm pm cc clc icr).countP fun i => retrievesFromAlt i) = 3
    ∧ exec M ((if truthy cc then verify_bottom_constant M else []) ++ third_component ++
        second_component ++ first_component tm pm clc)
        ([yP, xP, yQ1, yQ0, xQ1, xQ0, l1, l0, M], []) =
        some ((if tm then
            red pm M (l0 * xQ1 + l1 * xQ0 - yQ1) :: M ::
              red pm M (l0 * xQ0 - l1 * xQ1 - yQ0) :: (if truthy clc then [] else [M])
          else
            [l0 * xQ1 + l1 * xQ0 - yQ1, l0 * xQ0 - l1 * xQ1 - yQ0, M]),
          [yP, l0 * -xP, l1 * -xP])
    ∧ ∃ m, exec M (line_evaluation M tm pm cc clc icr)
        ([yP, xP, yQ1, yQ0, xQ1, xQ0, l1, l0, M], []) = some (m, []) := by
  refine ⟨?_, ?_, ?_, ?_⟩
  · rcases cc with _ | b
    · cases tm <;> rfl
    · cases b <;> cases tm <;> rfl
  · rcases cc with _ | b
    · cases tm <;> rfl
    · cases b <;> cases tm <;> rfl
  · exact exec_before_finalization M M l0 l1 xQ0 xQ1 yQ0 yQ1 xP yP tm pm clc (truthy cc)
      (fun _ => rfl)
  · rw [line_evaluation_norm]
    cases tm with
    | true =>
        exact ⟨_, line_evaluation_exec_true M M l0 l1 xQ0 xQ1 yQ0 yQ1 xP yP pm (truthy clc)
          (truthy icr) (truthy cc) (fun _ => rfl)⟩
    | false =>
        exact ⟨_, line_evaluation_exec_false M M l0 l1 xQ0 xQ1 yQ0 yQ1 xP yP pm (truthy clc)
          (truthy icr) (truthy cc) (fun _ => rfl)⟩
